import Mathlib

/-!
Verification of the pgfs package: a flat file system over Postgres large
objects, with a metadata table (`pgfs_metadata`) tracking each object.

The embedding models the database state (large objects, open descriptors,
metadata rows) explicitly and translates the Go functions of `io.go`,
`writer.go`, `file.go`, `fs.go` and `migrations.go` into pure Lean
functions over that state.  External collaborators (the SHA-256 hasher of
crypto/sha256, the sniffing function http.DetectContentType, the clock
NOW(), and the outcome of the metadata INSERT) are passed in as explicit
parameters, mirroring their role as external boundaries.
-/

namespace Pgfs

/-- Byte sequences (file / large-object content). -/
abbrev Bytes := List Nat

/-- The error taxonomy used by the Go code: `fs.ErrNotExist`, `fs.ErrExist`,
`fs.ErrClosed`, `io.EOF`, `io.ErrShortWrite`, `fs.ErrInvalid`,
`*fs.PathError` (returned by `FS.Create` on an invalid name), and opaque
store-level errors (`errors.New`, driver errors). -/
inductive Err where
  | notExist
  | exist
  | closed
  | eof
  | shortWrite
  | invalid
  | pathError (op : String) (path : String)
  | store (msg : String)
  deriving DecidableEq, Repr

/-- A row of the `pgfs_metadata` table (see the `Up` schema and the INSERT
in `writer.Close`): id is the parsed 128-bit UUID value, `oid` the large
object, `createdAt` the NOW() default, plus size, type, digest and the
free-form `sys` attributes. -/
structure Meta where
  oid : Nat
  id : Nat
  createdAt : Nat
  sys : List (String × String)
  contentSize : Nat
  contentType : String
  contentSHA256 : Bytes
  deriving DecidableEq, Repr

/-- The backing store: large objects by oid, open descriptors (fd ↦ oid,
position), the metadata table, and the allocation counters for fresh oids
and descriptors. -/
structure DB where
  objects : List (Nat × Bytes)
  fds : List (Nat × (Nat × Nat))
  meta : List Meta
  nextOid : Nat
  nextFd : Nat
  deriving DecidableEq, Repr

/-- Association-list lookup. -/
def alookup {α : Type} : List (Nat × α) → Nat → Option α
  | [], _ => none
  | (k, v) :: rest, key => if k = key then some v else alookup rest key

/-- Association-list update of an existing key (no-op when absent). -/
def aset {α : Type} : List (Nat × α) → Nat → α → List (Nat × α)
  | [], _, _ => []
  | (k, v) :: rest, key, nv =>
      if k = key then (k, nv) :: rest else (k, v) :: aset rest key nv

/-- Association-list removal of a key. -/
def aremove {α : Type} : List (Nat × α) → Nat → List (Nat × α)
  | [], _ => []
  | (k, v) :: rest, key =>
      if k = key then rest else (k, v) :: aremove rest key

/-- Value of a hexadecimal digit character, as used in parsing UUIDs. -/
def hexDigit (c : Char) : Option Nat :=
  if '0' ≤ c ∧ c ≤ '9' then some (c.toNat - 48)
  else if 'a' ≤ c ∧ c ≤ 'f' then some (c.toNat - 87)
  else if 'A' ≤ c ∧ c ≤ 'F' then some (c.toNat - 55)
  else none

/-- Modelled from the spec and the external google/uuid dependency:
`uuid.Parse` on the canonical textual form of a 128-bit unique identifier
(spec §6: 8-4-4-4-12 hexadecimal groups separated by dashes).  Position
index `i` runs over the 36 characters; dashes are required at positions
8, 13, 18 and 23; all other positions must be hexadecimal digits and
accumulate the 128-bit value big-endian. -/
def parseHyphenated : List Char → Nat → Nat → Option Nat
  | [], i, acc => if i = 36 then some acc else none
  | c :: rest, i, acc =>
      if i = 8 ∨ i = 13 ∨ i = 18 ∨ i = 23 then
        if c = '-' then parseHyphenated rest (i + 1) acc else none
      else
        match hexDigit c with
        | some d => parseHyphenated rest (i + 1) (acc * 16 + d)
        | none => none

/-- `uuid.Parse` (canonical form): returns the 128-bit value, or none for a
syntactically invalid name. -/
def uuidParse (s : String) : Option Nat :=
  parseHyphenated s.data 0 0

/-- `ValidPath` (fs.go): the empty string (root) or a valid UUID. -/
def ValidPath (name : String) : Bool :=
  name = "" || (uuidParse name).isSome

/-- `BinaryType` (fs.go): the generic MIME type for binary content. -/
def BinaryType : String := "application/octet-stream"

/-- `create` (io.go): atomic check-and-allocate.  The CTE returns no row
when a metadata record for `id` already exists (`sql.ErrNoRows`, mapped to
`fs.ErrExist`) and allocates no large object in that case; otherwise
`lo_create(0)` allocates a fresh empty object and `lo_open` opens a
descriptor on it at position 0. -/
def ioCreate (db : DB) (id : Nat) : Except Err (Nat × Nat) × DB :=
  if db.meta.any (fun m => m.id = id) then
    (.error .exist, db)
  else
    (.ok (db.nextOid, db.nextFd),
     { db with
        objects := (db.nextOid, ([] : Bytes)) :: db.objects,
        fds := (db.nextFd, (db.nextOid, 0)) :: db.fds,
        nextOid := db.nextOid + 1,
        nextFd := db.nextFd + 1 })

/-- `open` (io.go): looks up the metadata row for `id` (`sql.ErrNoRows`
mapped to `fs.ErrNotExist`) and opens a descriptor on its large object at
position 0. -/
def ioOpen (db : DB) (id : Nat) : Except Err (Meta × Nat) × DB :=
  match db.meta.find? (fun m => m.id = id) with
  | none => (.error .notExist, db)
  | some m =>
      (.ok (m, db.nextFd),
       { db with
          fds := (db.nextFd, (m.oid, 0)) :: db.fds,
          nextFd := db.nextFd + 1 })

/-- `write` (io.go): `SELECT lowrite($1, $2)`.  An unknown descriptor is a
store-level error; otherwise lowrite writes the bytes at the current
position (zero-filling any gap) and advances it, accepting all of them. -/
def ioWrite (db : DB) (fd : Nat) (b : Bytes) : Except Err Nat × DB :=
  match alookup db.fds fd with
  | none => (.error (.store "invalid large-object descriptor"), db)
  | some (oid, pos) =>
      let content := (alookup db.objects oid).getD []
      let base :=
        if pos ≤ content.length then content.take pos
        else content ++ List.replicate (pos - content.length) 0
      let newContent := base ++ b ++ content.drop (pos + b.length)
      (.ok b.length,
       { db with
          objects := aset db.objects oid newContent,
          fds := aset db.fds fd (oid, pos + b.length) })

/-- `read` (io.go): `SELECT loread($1, $2)` returns up to `count` bytes
from the current position and advances it; the Go wrapper reports `io.EOF`
exactly when fewer bytes than requested came back. -/
def ioRead (db : DB) (fd : Nat) (count : Nat) : (Bytes × Option Err) × DB :=
  match alookup db.fds fd with
  | none => ((([] : Bytes), some (.store "invalid large-object descriptor")), db)
  | some (oid, pos) =>
      let content := (alookup db.objects oid).getD []
      let chunk := (content.drop pos).take count
      ((chunk, if chunk.length = count then none else some .eof),
       { db with fds := aset db.fds fd (oid, pos + chunk.length) })

/-- `close` (io.go): `SELECT lo_close($1)`; closing an unknown descriptor
is a store-level error, otherwise the descriptor is released. -/
def ioClose (db : DB) (fd : Nat) : Option Err × DB :=
  match alookup db.fds fd with
  | none => (some (.store "invalid large-object descriptor"), db)
  | some _ => (none, { db with fds := aremove db.fds fd })

/-- `writer` (writer.go): descriptor, oid, identity, attributes, supplied
content type, running byte count, the digest accumulator state (the bytes
fed to the SHA-256 hasher so far), closed flag, and the up-to-512-byte
sniff buffer `tag`. -/
structure Writer where
  fd : Nat
  oid : Nat
  id : Nat
  sys : List (String × String)
  contentType : String
  size : Nat
  hashed : Bytes
  closed : Bool
  tag : Bytes
  deriving DecidableEq, Repr

/-- `writer.Write` (writer.go): rejects a closed handle with
`fs.ErrClosed` before any store access; otherwise forwards to the store's
`write`, adds the accepted count to `size`, feeds the accepted bytes to
the hasher, and — only when no content type was supplied at creation,
some bytes were accepted, and fewer than 512 sniff bytes are held —
appends up to the remaining capacity of the sniff buffer
(`i := min(n, 512 - len(tag))`). -/
def writerWrite (db : DB) (w : Writer) (b : Bytes) :
    (Nat × Option Err) × Writer × DB :=
  if w.closed then ((0, some .closed), w, db)
  else
    match ioWrite db w.fd b with
    | (.error e, db') => ((0, some e), w, db')
    | (.ok n, db') =>
        ((n, none),
         { w with
            size := w.size + n,
            hashed := w.hashed ++ b.take n,
            tag :=
              if w.contentType = "" ∧ 0 < n ∧ w.tag.length < 512 then
                w.tag ++ b.take (min n (512 - w.tag.length))
              else w.tag },
         db')

/-- `writer.Close` (writer.go): `fs.ErrClosed` on an already closed
handle; otherwise runs content-type detection `D` over the sniff buffer
when no type was supplied, INSERTs the metadata row (oid, id, sys, size,
type, digest `H` of the accumulated bytes; `created_at` defaults to
NOW(), the `now` parameter), then releases the descriptor.  `insertFails`
models the outcome of the INSERT `Exec`: on failure the error is returned
and — exactly as in the source — the closed flag is not set and the
descriptor is not released. -/
def writerClose (H : Bytes → Bytes) (D : Bytes → String) (now : Nat)
    (insertFails : Bool) (db : DB) (w : Writer) : Option Err × Writer × DB :=
  if w.closed then (some .closed, w, db)
  else
    let ct := if w.contentType = "" then D w.tag else w.contentType
    let w1 := { w with contentType := ct }
    if insertFails then (some (.store "insert failed"), w1, db)
    else
      let m : Meta :=
        { oid := w1.oid, id := w1.id, createdAt := now, sys := w1.sys,
          contentSize := w1.size, contentType := ct,
          contentSHA256 := H w1.hashed }
      let db1 := { db with meta := db.meta ++ [m] }
      match ioClose db1 w1.fd with
      | (some e, db2) => (some e, w1, db2)
      | (none, db2) => (none, { w1 with closed := true }, db2)

/-- `file` (file.go): a read handle over an open descriptor, with its
seeded metadata, tracked position and closed flag. -/
structure File where
  fd : Nat
  info : Meta
  pos : Nat
  closed : Bool
  deriving DecidableEq, Repr

/-- `file.Read` (file.go): forwards to the store's positional read. -/
def fileRead (db : DB) (f : File) (count : Nat) : (Bytes × Option Err) × DB :=
  ioRead db f.fd count

/-- `file.Close` (file.go), translated verbatim: returns `fs.ErrClosed`
when the closed flag is set; otherwise issues the store close, and sets
the closed flag only when that close FAILED (`if err != nil
{ f.closed = true }` in the source). -/
def fileClose (db : DB) (f : File) : Option Err × File × DB :=
  if f.closed then (some .closed, f, db)
  else
    match ioClose db f.fd with
    | (some e, db') => (some e, { f with closed := true }, db')
    | (none, db') => (none, f, db')

/-- `dir` (file.go): the root directory handle, with its pagination
cursor and closed flag. -/
structure Dir where
  cur : Nat
  closed : Bool
  deriving DecidableEq, Repr

/-- The `ORDER BY id ASC` of the enumeration queries: metadata rows sorted
by ascending id. -/
def sortMeta (l : List Meta) : List Meta :=
  List.insertionSort (fun a b => a.id ≤ b.id) l

/-- `dir.Readdir` (file.go): `SELECT ... ORDER BY id ASC OFFSET $1 LIMIT
$2` with the cursor as offset; the cursor advances by one per scanned
row, and `io.EOF` is reported exactly when fewer than `n` rows came
back. -/
def dirReaddir (db : DB) (d : Dir) (n : Nat) :
    (List Meta × Option Err) × Dir :=
  let rows := ((sortMeta db.meta).drop d.cur).take n
  ((rows, if rows.length < n then some .eof else none),
   { d with cur := d.cur + rows.length })

/-- The `fs.FileInfo` view (`entry` in file.go): name/id, directory
marker (`fs.ModeDir` vs mode 0), `Size`, `ModTime`, content type, digest
and the `sys` attributes. -/
structure StatInfo where
  id : Nat
  oid : Nat
  isDir : Bool
  size : Nat
  modTime : Nat
  contentType : String
  contentSHA256 : Bytes
  sys : List (String × String)
  deriving DecidableEq, Repr

/-- The entry for a regular metadata row, mode 0 (not a directory). -/
def mkInfo (m : Meta) : StatInfo :=
  { id := m.id, oid := m.oid, isDir := false, size := m.contentSize,
    modTime := m.createdAt, contentType := m.contentType,
    contentSHA256 := m.contentSHA256, sys := m.sys }

/-- `ORDER BY created_at DESC LIMIT 1`: the greatest `created_at` among
the rows, or none when the table is empty. -/
def maxCreatedAt : List Meta → Option Nat
  | [] => none
  | m :: rest =>
      some (match maxCreatedAt rest with
            | none => m.createdAt
            | some t => max m.createdAt t)

/-- `SUM(content_size)` over the metadata table. -/
def sumSizes (l : List Meta) : Nat := (l.map (fun m => m.contentSize)).sum

/-- `FS.rootInfo` (fs.go), translated verbatim.  The query selects
`COALESCE(created_at, NOW())` and the aggregated size from the newest
row; since `created_at` is NOT NULL in the schema the COALESCE never
falls back to NOW() (`now` is therefore unused), and when the table is
empty the query returns no row at all: `Scan` yields `sql.ErrNoRows`,
which `rootInfo` swallows, leaving the zero values of the entry — the
zero timestamp and size 0 — with the directory mode set. -/
def rootInfo (now : Nat) (db : DB) : StatInfo :=
  let zero : StatInfo :=
    { id := 0, oid := 0, isDir := true, size := 0, modTime := 0,
      contentType := "", contentSHA256 := [], sys := [] }
  match maxCreatedAt db.meta with
  | none => zero
  | some t => { zero with size := sumSizes db.meta, modTime := t }

/-- `FS.Stat` (fs.go): the empty name denotes the root; a non-empty name
that does not parse as a UUID fails `fs.ErrNotExist` before any store
access; otherwise the metadata row is looked up (`sql.ErrNoRows` mapped
to `fs.ErrNotExist`). -/
def fsStat (now : Nat) (db : DB) (name : String) : Except Err StatInfo :=
  if name = "" then .ok (rootInfo now db)
  else
    match uuidParse name with
    | none => .error .notExist
    | some id =>
        match db.meta.find? (fun m => m.id = id) with
        | none => .error .notExist
        | some m => .ok (mkInfo m)

/-- `FS.Open` (fs.go): the empty name returns the root directory handle
with its cursor at zero; a non-empty name that does not parse fails
`fs.ErrNotExist` before any store access; otherwise the object is opened
for reading and wrapped in a read handle seeded with its metadata. -/
def fsOpen (db : DB) (name : String) : Except Err (File ⊕ Dir) × DB :=
  if name = "" then (.ok (.inr { cur := 0, closed := false }), db)
  else
    match uuidParse name with
    | none => (.error .notExist, db)
    | some id =>
        match ioOpen db id with
        | (.error e, db') => (.error e, db')
        | (.ok (m, fd), db') =>
            (.ok (.inl { fd := fd, info := m, pos := 0, closed := false }), db')

/-- `FS.Create` (fs.go): an invalid name is rejected with a
`*fs.PathError` (op "create") before any store access — an
invalid-argument error distinct from `fs.ErrNotExist`; otherwise the
atomic check-and-allocate `create` runs and the fresh descriptor is
wrapped in a writer with empty accumulators. -/
def fsCreate (db : DB) (name : String) (contentType : String)
    (sys : List (String × String)) : Except Err Writer × DB :=
  match uuidParse name with
  | none => (.error (.pathError "create" name), db)
  | some id =>
      match ioCreate db id with
      | (.error e, db') => (.error e, db')
      | (.ok (oid, fd), db') =>
          (.ok { fd := fd, oid := oid, id := id, sys := sys,
                 contentType := contentType, size := 0, hashed := [],
                 closed := false, tag := [] },
           db')

/-- `FS.Remove` (fs.go) / `remove` (io.go): an invalid name fails
`fs.ErrNotExist`; otherwise the metadata row and the large object are
deleted together, atomically (`sql.ErrNoRows` when no row matched). -/
def fsRemove (db : DB) (name : String) : Option Err × DB :=
  match uuidParse name with
  | none => (some .notExist, db)
  | some id =>
      match db.meta.find? (fun m => m.id = id) with
      | none => (some .notExist, db)
      | some m =>
          (none,
           { db with
              meta := db.meta.filter (fun mm => mm.id ≠ id),
              objects := aremove db.objects m.oid })

/-- `Up` (migrations.go): the schema creation script. -/
def Up : String := "
	CREATE EXTENSION IF NOT EXISTS lo;
	CREATE TABLE IF NOT EXISTS pgfs_metadata (
		id UUID NOT NULL PRIMARY KEY,
		oid OID NOT NULL UNIQUE,
		created_at TIMESTAMP NOT NULL DEFAULT NOW(),
		sys JSONB,
		content_type TEXT NOT NULL DEFAULT 'application/octet-stream',
		content_size BIGINT NOT NULL,
		content_sha256 BYTEA NOT NULL
	);
"

/-- `Down` (migrations.go): the schema drop script. -/
def Down : String := "DROP TABLE pgfs_metadata;"

/-- `MigrateUp` (migrations.go): executes `Up` on the connection;
`exec` models `Tx.Exec`, returning an optional error. -/
def MigrateUp (exec : String → Option String) : Option String := exec Up

/-- `MigrateDown` (migrations.go), translated verbatim: it executes `Up`
(not `Down`) on the connection. -/
def MigrateDown (exec : String → Option String) : Option String := exec Up

/-- Writing a sequence of chunks through a writer, as a caller streaming
a byte sequence in chunks would (each call forwarding to
`writer.Write`). -/
def writeChunks (db : DB) (w : Writer) : List Bytes → Writer × DB
  | [] => (w, db)
  | b :: rest =>
      let r := writerWrite db w b
      writeChunks r.2.2 r.2.1 rest

/-- Reading a file handle to end-of-stream in chunks of `k` bytes,
collecting everything read, as `io.ReadAll` does through `file.Read`
(`fuel` bounds the number of read calls). -/
def readFull (f : File) (k : Nat) : Nat → DB → Bytes × DB
  | 0, db => ([], db)
  | fuel + 1, db =>
      let r := fileRead db f k
      match r.1.2 with
      | some _ => (r.1.1, r.2)
      | none =>
          let rest := readFull f k fuel r.2
          (r.1.1 ++ rest.1, rest.2)

/-- The full write-side scenario: `FS.Create`, a sequence of writes, then
`writer.Close`; returns the error outcome and the final store state. -/
def createWriteClose (H : Bytes → Bytes) (D : Bytes → String) (now : Nat)
    (db0 : DB) (name contentType : String) (sys : List (String × String))
    (chunks : List Bytes) : Option Err × DB :=
  match fsCreate db0 name contentType sys with
  | (.error e, db1) => (some e, db1)
  | (.ok w, db1) =>
      let r := writeChunks db1 w chunks
      let c := writerClose H D now false r.2 r.1
      (c.1, c.2.2)

/-- The full read-side scenario: `FS.Open` then reading to end-of-stream
in chunks of `k` bytes. -/
def openReadFull (db : DB) (name : String) (k fuel : Nat) :
    Option Err × Bytes :=
  match fsOpen db name with
  | (.error e, _) => (some e, [])
  | (.ok (.inr _), _) => (some .invalid, [])
  | (.ok (.inl f), db') => (none, (readFull f k fuel db').1)

/-- A store with no objects and no metadata rows. -/
def emptyDB : DB :=
  { objects := [], fds := [], meta := [], nextOid := 1, nextFd := 1 }

/-- A sample metadata row (id 1, oid 7, two bytes of content). -/
def sampleMeta1 : Meta :=
  { oid := 7, id := 1, createdAt := 3, sys := [], contentSize := 2,
    contentType := "text/plain", contentSHA256 := [1, 2] }

/-- The canonical name of id 1. -/
def sampleName : String := "00000000-0000-0000-0000-000000000001"

/-- A store holding the sample row and its object, with no open
descriptors. -/
def sampleDB1 : DB :=
  { objects := [(7, [10, 20])], fds := [], meta := [sampleMeta1],
    nextOid := 8, nextFd := 1 }

/-- The sample store with one open descriptor (fd 0) on oid 7. -/
def dbWithFd : DB :=
  { objects := [(7, [10, 20])], fds := [(0, (7, 0))], meta := [sampleMeta1],
    nextOid := 8, nextFd := 1 }

/-- A read handle over fd 0 of `dbWithFd`. -/
def sampleFile : File :=
  { fd := 0, info := sampleMeta1, pos := 0, closed := false }

/-- A writer already marked closed. -/
def sampleClosedWriter : Writer :=
  { fd := 0, oid := 0, id := 0, sys := [], contentType := "", size := 0,
    hashed := [], closed := true, tag := [] }

/-- An open writer bound to fd 0 of `dbWithFd`, with an explicit content
type and two bytes already accepted. -/
def sampleOpenWriter : Writer :=
  { fd := 0, oid := 7, id := 1, sys := [], contentType := "text/plain",
    size := 2, hashed := [10, 20], closed := false, tag := [] }

/-- C10: for every closed Write Handle and every byte slice, `Write`
returns zero bytes written and the ClosedHandle error, leaves the byte
count, digest accumulator and sniff buffer unchanged, and issues no store
operation (the store state is returned untouched, whatever it was). -/
theorem c10_write_after_close (db : DB) (w : Writer) (b : Bytes)
    (h : w.closed = true) :
    writerWrite db w b = ((0, some Err.closed), w, db) := by
  simp [writerWrite, h]

/-- C10 witness: a concrete closed writer, a concrete store and chunk. -/
theorem c10_write_after_close_witness :
    writerWrite sampleDB1 sampleClosedWriter [1, 2] =
      ((0, some Err.closed), sampleClosedWriter, sampleDB1) :=
  c10_write_after_close sampleDB1 sampleClosedWriter [1, 2] rfl

/-- C2: creating a name whose metadata record already exists fails with
AlreadyExists, and the store is returned completely unchanged — no second
large object is allocated, no descriptor opened, no counter advanced
(the check-and-allocate is one atomic step). -/
theorem c2_create_existing (db : DB) (name ct : String)
    (sys : List (String × String)) (id : Nat)
    (hp : uuidParse name = some id)
    (hex : db.meta.any (fun m => m.id = id) = true) :
    fsCreate db name ct sys = (.error Err.exist, db) := by
  simp [fsCreate, hp, ioCreate, hex]

/-- C2 witness: the sample store already holds a record for id 1; a
second create of its name fails AlreadyExists and allocates nothing. -/
theorem c2_create_existing_witness :
    fsCreate sampleDB1 sampleName "" [] = (.error Err.exist, sampleDB1) :=
  c2_create_existing sampleDB1 sampleName "" [] 1 (by decide) (by decide)

/-- C3 counter-evidence: on a Read Handle whose first `Close` succeeded,
the closed flag is still false (the source sets it only when the store
close fails), so the second `Close` re-issues the store release instead
of returning the ClosedHandle error. -/
theorem c3_read_handle_double_close :
    (fileClose dbWithFd sampleFile).1 = none ∧
    (fileClose dbWithFd sampleFile).2.1.closed = false ∧
    (fileClose (fileClose dbWithFd sampleFile).2.2
        (fileClose dbWithFd sampleFile).2.1).1 ≠ some Err.closed := by
  decide

/-- C4 counterexample: when the metadata INSERT fails at close, the
failure is surfaced, but the handle is NOT closed from the caller's point
of view: the closed flag stays false and a subsequent `Write` succeeds
(no ClosedHandle error), contrary to the claim. -/
theorem c4_insert_failure_counterexample :
    (writerClose (fun x => x) (fun _ => BinaryType) 9 true dbWithFd
        sampleOpenWriter).1 = some (Err.store "insert failed") ∧
    (writerClose (fun x => x) (fun _ => BinaryType) 9 true dbWithFd
        sampleOpenWriter).2.1.closed = false ∧
    (writerWrite
        (writerClose (fun x => x) (fun _ => BinaryType) 9 true dbWithFd
          sampleOpenWriter).2.2
        (writerClose (fun x => x) (fun _ => BinaryType) 9 true dbWithFd
          sampleOpenWriter).2.1 [5]).1.2 = none := by
  decide

/-- C4 (amended): when the metadata INSERT fails on the first close, the
failure is surfaced to the caller, the store state is untouched, and the
writer is NOT marked closed — its descriptor remains open, subsequent
operations do not fail ClosedHandle and the close may be retried; only
the content type has been fixed by detection when none was supplied. -/
theorem c4_insert_failure_surfaced (H : Bytes → Bytes) (D : Bytes → String)
    (now : Nat) (db : DB) (w : Writer) (h : w.closed = false) :
    writerClose H D now true db w =
      (some (Err.store "insert failed"),
       { w with contentType :=
          if w.contentType = "" then D w.tag else w.contentType },
       db) := by
  simp [writerClose, h]

/-- C4 witness: the amended behaviour at a concrete writer and store. -/
theorem c4_insert_failure_surfaced_witness :
    writerClose (fun x => x) (fun _ => BinaryType) 9 true dbWithFd
      sampleOpenWriter =
      (some (Err.store "insert failed"), sampleOpenWriter, dbWithFd) := by
  have h := c4_insert_failure_surfaced (fun x => x) (fun _ => BinaryType) 9
    dbWithFd sampleOpenWriter (by decide)
  simpa using h

/-- C5 evidence at the failing input: on an empty store, Stat of the root
returns a directory-marked entry of size 0 whose modification time is the
ZERO timestamp, not the current time (`now = 5` here): the NOW() fallback
in the query is unreachable because no row is returned at all. -/
theorem c5_empty_root_zero_modtime :
    fsStat 5 emptyDB "" =
      .ok { id := 0, oid := 0, isDir := true, size := 0, modTime := 0,
            contentType := "", contentSHA256 := [], sys := [] } ∧
    (rootInfo 5 emptyDB).modTime ≠ 5 :=
  ⟨rfl, by decide⟩

/-- C8: a name that is not a syntactically valid identifier is rejected
before any store access — for every store state, Create fails with the
invalid-argument PathError (distinct from NotFound) leaving the store
untouched, while Stat and Open fail with NotFound, also leaving the
store untouched. -/
theorem c8_invalid_name (name ct : String) (sys : List (String × String))
    (h : uuidParse name = none) (hne : name ≠ "") :
    (∀ db : DB, fsCreate db name ct sys =
      (.error (Err.pathError "create" name), db)) ∧
    Err.pathError "create" name ≠ Err.notExist ∧
    (∀ (now : Nat) (db : DB), fsStat now db name = .error Err.notExist) ∧
    (∀ db : DB, fsOpen db name = (.error Err.notExist, db)) := by
  refine ⟨fun db => by simp [fsCreate, h], by simp, ?_, ?_⟩
  · intro now db
    simp [fsStat, hne, h]
  · intro db
    simp [fsOpen, hne, h]

/-- C8 witness: the concrete invalid name "zzz" against concrete
stores. -/
theorem c8_invalid_name_witness :
    fsCreate sampleDB1 "zzz" "" [] =
      (.error (Err.pathError "create" "zzz"), sampleDB1) ∧
    fsStat 0 emptyDB "zzz" = .error Err.notExist ∧
    fsOpen emptyDB "zzz" = (.error Err.notExist, emptyDB) :=
  ⟨(c8_invalid_name "zzz" "" [] (by decide) (by decide)).1 sampleDB1,
   (c8_invalid_name "zzz" "" [] (by decide) (by decide)).2.2.1 0 emptyDB,
   (c8_invalid_name "zzz" "" [] (by decide) (by decide)).2.2.2 emptyDB⟩

/-- C9: the schema teardown `MigrateDown` executes the creation script
`Up` — it is extensionally identical to `MigrateUp` — and this is not
equivalent to executing `Down`, since `Up ≠ Down` and an executor can
tell them apart. -/
theorem c9_migrate_down_runs_up :
    (∀ exec : String → Option String, MigrateDown exec = MigrateUp exec) ∧
    Up ≠ Down ∧
    MigrateDown some ≠ some Down := by
  refine ⟨fun _ => rfl, ?_, ?_⟩
  · decide
  · intro h
    have : Up = Down := Option.some.inj h
    exact absurd this (by decide)

instance : IsTotal Meta (fun a b => a.id ≤ b.id) :=
  ⟨fun a b => Nat.le_total a.id b.id⟩

instance : IsTrans Meta (fun a b => a.id ≤ b.id) :=
  ⟨fun _ _ _ h₁ h₂ => Nat.le_trans h₁ h₂⟩

/-- The id-sorted view is sorted (pairwise ≤ on ids). -/
theorem sortMeta_sorted (l : List Meta) :
    List.Pairwise (fun a b => a.id ≤ b.id) (sortMeta l) :=
  List.sorted_insertionSort (fun a b : Meta => a.id ≤ b.id) l

/-- The id-sorted view is a permutation of the table. -/
theorem sortMeta_perm (l : List Meta) : List.Perm (sortMeta l) l :=
  List.perm_insertionSort (fun a b : Meta => a.id ≤ b.id) l

/-- With distinct ids (the PRIMARY KEY of the schema), the sorted view is
strictly ascending in id. -/
theorem sortMeta_strict (l : List Meta) (h : (l.map Meta.id).Nodup) :
    List.Pairwise (fun a b => a.id < b.id) (sortMeta l) := by
  have hperm : List.Perm ((sortMeta l).map Meta.id) (l.map Meta.id) :=
    (sortMeta_perm l).map Meta.id
  have hnd : ((sortMeta l).map Meta.id).Nodup := hperm.nodup_iff.mpr h
  have hne : List.Pairwise (fun a b : Meta => a.id ≠ b.id) (sortMeta l) :=
    (List.pairwise_map).mp hnd
  have := (sortMeta_sorted l).and hne
  exact this.imp (fun hab => Nat.lt_of_le_of_ne hab.1 hab.2)

/-- C7: for every enumeration call requesting n > 0 entries on a table
with distinct ids: the rows returned are the id-ascending-sorted records
from the cursor's zero-based offset, taken up to n; end-of-sequence
(io.EOF) is signalled exactly when fewer than n rows are returned; the
cursor advances by the number of rows returned; after exhaustion the call
returns zero rows with the same EOF signal and leaves the cursor (hence
every subsequent call) unchanged — not an error; and the returned ids
are strictly ascending. -/
theorem c7_readdir (db : DB) (d : Dir) (n : Nat) (hn : 0 < n)
    (hnd : (db.meta.map Meta.id).Nodup) :
    (dirReaddir db d n).1.1 = ((sortMeta db.meta).drop d.cur).take n ∧
    ((dirReaddir db d n).1.2 = some Err.eof ↔
      (dirReaddir db d n).1.1.length < n) ∧
    (dirReaddir db d n).2.cur = d.cur + (dirReaddir db d n).1.1.length ∧
    ((sortMeta db.meta).length ≤ d.cur →
      (dirReaddir db d n).1.1 = [] ∧
      (dirReaddir db d n).1.2 = some Err.eof ∧
      (dirReaddir db d n).2 = d) ∧
    List.Pairwise (· < ·) ((dirReaddir db d n).1.1.map Meta.id) := by
  refine ⟨rfl, ?_, rfl, ?_, ?_⟩
  · by_cases h : (((sortMeta db.meta).drop d.cur).take n).length < n <;>
      simp [dirReaddir, h]
  · intro hcur
    have hdrop : (sortMeta db.meta).drop d.cur = [] :=
      List.drop_eq_nil_of_le hcur
    refine ⟨by simp [dirReaddir, hdrop], by simp [dirReaddir, hdrop, hn], ?_⟩
    simp [dirReaddir, hdrop]
  · have hsub :
        List.Sublist (((sortMeta db.meta).drop d.cur).take n)
          (sortMeta db.meta) :=
      (List.take_sublist _ _).trans (List.drop_sublist _ _)
    have := (sortMeta_strict db.meta hnd).sublist hsub
    exact (List.pairwise_map).mpr this

/-- C7 witness: a one-record store, request 2 entries from offset 0. -/
theorem c7_readdir_witness :
    (dirReaddir sampleDB1 { cur := 0, closed := false } 2).1.1 =
      [sampleMeta1] ∧
    (dirReaddir sampleDB1 { cur := 0, closed := false } 2).1.2 =
      some Err.eof := by
  have h := c7_readdir sampleDB1 { cur := 0, closed := false } 2
    (by decide) (by decide)
  exact ⟨h.1.trans (by decide), h.2.1.mpr (by decide)⟩

/-- Updating a present key makes it look up to the new value. -/
theorem alookup_aset_self {α : Type} (l : List (Nat × α)) (k : Nat)
    (v₀ v : α) (h : alookup l k = some v₀) :
    alookup (aset l k v) k = some v := by
  induction l with
  | nil => simp [alookup] at h
  | cons hd tl ih =>
    by_cases hk : hd.1 = k
    · simp [alookup, aset, hk]
    · simp only [alookup, aset, hk, if_false] at h ⊢
      exact ih h

/-- `find?` skips a prefix on which the predicate is everywhere false. -/
theorem find?_append_of_none {α : Type} (p : α → Bool) (l₁ l₂ : List α)
    (h : ∀ x ∈ l₁, p x = false) :
    List.find? p (l₁ ++ l₂) = List.find? p l₂ := by
  induction l₁ with
  | nil => simp
  | cons hd tl ih =>
    have hhd : p hd = false := h hd (by simp)
    simp only [List.cons_append, List.find?, hhd]
    exact ih (fun x hx => h x (by simp [hx]))

/-- Taking `min (length b) m` is the same as taking `m`. -/
theorem take_min_self {α : Type} (b : List α) (m : Nat) :
    b.take (min b.length m) = b.take m := by
  rcases Nat.le_total m b.length with h | h
  · rw [Nat.min_eq_right h]
  · rw [Nat.min_eq_left h, List.take_length,
        List.take_of_length_le h]

/-- The sniff-buffer update of `writer.Write` keeps the buffer equal to
the first 512 bytes of everything accepted so far. -/
theorem tag_update (hashed b : Bytes) :
    (if 0 < b.length ∧ (hashed.take 512).length < 512 then
       hashed.take 512 ++
         b.take (min b.length (512 - (hashed.take 512).length))
     else hashed.take 512) = (hashed ++ b).take 512 := by
  rcases Nat.eq_zero_or_pos b.length with hb | hb
  · have hbnil : b = [] := List.length_eq_zero.mp hb
    subst hbnil
    simp
  · by_cases hlen : hashed.length < 512
    · have htk : hashed.take 512 = hashed :=
        List.take_of_length_le (Nat.le_of_lt hlen)
      rw [htk, if_pos ⟨hb, hlen⟩, take_min_self,
          List.take_append_eq_append_take, htk]
    · have h512 : (hashed.take 512).length = 512 := by
        rw [List.length_take]
        omega
      rw [if_neg (by omega), List.take_append_eq_append_take]
      have : 512 - hashed.length = 0 := by omega
      rw [this]
      simp

/-- The state invariant of an open writer: the descriptor points at the
writer's object with its position at the end, the object's content is
exactly the bytes fed to the hasher, the byte count matches, and the
sniff buffer is the first 512 accepted bytes (or empty when a content
type was supplied at creation). -/
def WInv (w : Writer) (db : DB) : Prop :=
  w.closed = false ∧
  alookup db.fds w.fd = some (w.oid, w.hashed.length) ∧
  alookup db.objects w.oid = some w.hashed ∧
  w.size = w.hashed.length ∧
  (w.contentType = "" → w.tag = w.hashed.take 512) ∧
  (w.contentType ≠ "" → w.tag = [])

/-- Unfolding of one `writer.Write` call on an open writer whose
descriptor sits at the end of its object: the store accepts all bytes,
the object and the digest accumulator both grow by `b`, and the sniff
buffer grows by at most its remaining capacity. -/
theorem writerWrite_eq (db : DB) (w : Writer) (b : Bytes)
    (hc : w.closed = false)
    (hfd : alookup db.fds w.fd = some (w.oid, w.hashed.length))
    (hobj : alookup db.objects w.oid = some w.hashed) :
    writerWrite db w b =
      ((b.length, none),
       { w with
          size := w.size + b.length,
          hashed := w.hashed ++ b,
          tag :=
            if w.contentType = "" ∧ 0 < b.length ∧ w.tag.length < 512 then
              w.tag ++ b.take (min b.length (512 - w.tag.length))
            else w.tag },
       { db with
          objects := aset db.objects w.oid (w.hashed ++ b),
          fds := aset db.fds w.fd (w.oid, w.hashed.length + b.length) }) := by
  simp only [writerWrite, hc, Bool.false_eq_true, if_false, ioWrite, hfd,
    hobj, Option.getD_some, Nat.le_refl, if_pos, List.take_length,
    List.drop_eq_nil_of_le (Nat.le_add_right w.hashed.length b.length),
    List.append_nil]

/-- One `writer.Write` call preserves the writer invariant and appends
the chunk to the accumulated bytes; identity fields, the metadata table
and the allocation counters are untouched. -/
theorem writerWrite_step (db : DB) (w : Writer) (b : Bytes) (h : WInv w db) :
    (writerWrite db w b).1 = (b.length, none) ∧
    WInv (writerWrite db w b).2.1 (writerWrite db w b).2.2 ∧
    (writerWrite db w b).2.1.hashed = w.hashed ++ b ∧
    (writerWrite db w b).2.1.contentType = w.contentType ∧
    (writerWrite db w b).2.1.fd = w.fd ∧
    (writerWrite db w b).2.1.oid = w.oid ∧
    (writerWrite db w b).2.1.id = w.id ∧
    (writerWrite db w b).2.1.sys = w.sys ∧
    (writerWrite db w b).2.2.meta = db.meta ∧
    (writerWrite db w b).2.2.nextFd = db.nextFd := by
  obtain ⟨hc, hfd, hobj, hsz, ht1, ht2⟩ := h
  rw [writerWrite_eq db w b hc hfd hobj]
  dsimp only [WInv]
  refine ⟨rfl, ⟨hc, ?_, ?_, ?_, ?_, ?_⟩, rfl, rfl, rfl, rfl, rfl, rfl, rfl,
    rfl⟩
  · simpa [List.length_append] using
      alookup_aset_self db.fds w.fd (w.oid, w.hashed.length)
        (w.oid, w.hashed.length + b.length) hfd
  · exact alookup_aset_self db.objects w.oid w.hashed (w.hashed ++ b) hobj
  · simp [hsz, List.length_append]
  · intro hct
    rw [ht1 hct, hct]
    simp only [eq_self_iff_true, true_and]
    exact tag_update w.hashed b
  · intro hct
    rw [ht2 hct]
    simp [hct]

/-- Streaming any sequence of chunks preserves the writer invariant; the
accumulated bytes are the concatenation of the chunks, and identity
fields, the metadata table and the allocation counters are untouched. -/
theorem writeChunks_inv (chunks : List Bytes) (db : DB) (w : Writer)
    (h : WInv w db) :
    WInv (writeChunks db w chunks).1 (writeChunks db w chunks).2 ∧
    (writeChunks db w chunks).1.hashed = w.hashed ++ chunks.flatten ∧
    (writeChunks db w chunks).1.contentType = w.contentType ∧
    (writeChunks db w chunks).1.fd = w.fd ∧
    (writeChunks db w chunks).1.oid = w.oid ∧
    (writeChunks db w chunks).1.id = w.id ∧
    (writeChunks db w chunks).1.sys = w.sys ∧
    (writeChunks db w chunks).2.meta = db.meta ∧
    (writeChunks db w chunks).2.nextFd = db.nextFd := by
  induction chunks generalizing db w with
  | nil => simpa [writeChunks] using h
  | cons c rest ih =>
    obtain ⟨h1, hinv, hh, hct, hfd, hoid, hid, hsys, hmeta, hnfd⟩ :=
      writerWrite_step db w c h
    have := ih (writerWrite db w c).2.2 (writerWrite db w c).2.1 hinv
    simp only [writeChunks]
    refine ⟨this.1, ?_, ?_, ?_, ?_, ?_, ?_, ?_, ?_⟩
    · rw [this.2.1, hh]
      simp [List.append_assoc]
    · rw [this.2.2.1, hct]
    · rw [this.2.2.2.1, hfd]
    · rw [this.2.2.2.2.1, hoid]
    · rw [this.2.2.2.2.2.1, hid]
    · rw [this.2.2.2.2.2.2.1, hsys]
    · rw [this.2.2.2.2.2.2.2.1, hmeta]
    · rw [this.2.2.2.2.2.2.2.2, hnfd]

/-- Unfolding of a successful `FS.Create`: the name parses, no record
exists, so a fresh empty object and a descriptor at position 0 are
allocated and wrapped in a writer with empty accumulators. -/
theorem fsCreate_eq (db0 : DB) (name ct : String)
    (sys : List (String × String)) (id : Nat)
    (hp : uuidParse name = some id)
    (hfree : db0.meta.any (fun m => m.id = id) = false) :
    fsCreate db0 name ct sys =
      (.ok { fd := db0.nextFd, oid := db0.nextOid, id := id, sys := sys,
             contentType := ct, size := 0, hashed := [], closed := false,
             tag := [] },
       { db0 with
          objects := (db0.nextOid, ([] : Bytes)) :: db0.objects,
          fds := (db0.nextFd, (db0.nextOid, 0)) :: db0.fds,
          nextOid := db0.nextOid + 1,
          nextFd := db0.nextFd + 1 }) := by
  simp [fsCreate, hp, ioCreate, hfree]

/-- A freshly created writer satisfies the writer invariant. -/
theorem WInv_init (db0 : DB) (id : Nat) (ct : String)
    (sys : List (String × String)) :
    WInv
      { fd := db0.nextFd, oid := db0.nextOid, id := id, sys := sys,
        contentType := ct, size := 0, hashed := [], closed := false,
        tag := [] }
      { db0 with
         objects := (db0.nextOid, ([] : Bytes)) :: db0.objects,
         fds := (db0.nextFd, (db0.nextOid, 0)) :: db0.fds,
         nextOid := db0.nextOid + 1,
         nextFd := db0.nextFd + 1 } := by
  refine ⟨rfl, ?_, ?_, rfl, fun _ => rfl, fun _ => rfl⟩ <;> simp [alookup]

/-- Unfolding of a successful first `writer.Close`: detection fixes the
content type, the metadata row is inserted, and the descriptor is
released, after which the writer is marked closed. -/
theorem writerClose_eq (H : Bytes → Bytes) (D : Bytes → String) (now : Nat)
    (db : DB) (w : Writer)
    (hc : w.closed = false)
    (hfd : alookup db.fds w.fd = some (w.oid, w.hashed.length)) :
    writerClose H D now false db w =
      (none,
       { w with
          contentType := if w.contentType = "" then D w.tag else w.contentType,
          closed := true },
       { db with
          meta := db.meta ++
            [{ oid := w.oid, id := w.id, createdAt := now, sys := w.sys,
               contentSize := w.size,
               contentType :=
                 if w.contentType = "" then D w.tag else w.contentType,
               contentSHA256 := H w.hashed }],
          fds := aremove db.fds w.fd }) := by
  simp only [writerClose, hc, Bool.false_eq_true, if_false, ioClose, hfd]

/-- Reading to end-of-stream in chunks of `k > 0` bytes from a descriptor
at position `pos` returns exactly the remaining content, given enough
read calls. -/
theorem readFull_spec (k : Nat) (hk : 0 < k) :
    ∀ (fuel : Nat) (db : DB) (f : File) (oid pos : Nat) (content : Bytes),
      alookup db.fds f.fd = some (oid, pos) →
      alookup db.objects oid = some content →
      (content.length - pos) / k + 1 ≤ fuel →
      (readFull f k fuel db).1 = content.drop pos := by
  intro fuel
  induction fuel with
  | zero =>
    intro db f oid pos content _ _ hfuel
    exact absurd hfuel (Nat.not_succ_le_zero _)
  | succ fuel ih =>
    intro db f oid pos content hfd hobj hfuel
    simp only [readFull, fileRead, ioRead, hfd, hobj, Option.getD_some]
    by_cases hlen : ((content.drop pos).take k).length = k
    · simp only [hlen, if_pos, if_true]
      have hge : k ≤ content.length - pos := by
        rw [List.length_take, List.length_drop] at hlen
        omega
      have hfd' :
          alookup (aset db.fds f.fd (oid, pos + k)) f.fd =
            some (oid, pos + k) :=
        alookup_aset_self db.fds f.fd (oid, pos) (oid, pos + k) hfd
      have hbound : (content.length - (pos + k)) / k + 1 ≤ fuel := by
        rw [← Nat.sub_sub]
        have h2 := hfuel
        rw [Nat.div_eq_sub_div hk hge] at h2
        omega
      have := ih
        { db with fds := aset db.fds f.fd (oid, pos + k) }
        f oid (pos + k) content hfd' hobj hbound
      rw [this]
      exact List.drop_take_append_drop content pos k
    · simp only [hlen, if_neg, if_false]
      have hle : (content.drop pos).length ≤ k := by
        rw [List.length_take] at hlen
        omega
      exact List.take_of_length_le hle

/-- When no record in the table carries `id`, the membership predicate is
false everywhere. -/
theorem meta_not_found (l : List Meta) (id : Nat)
    (h : l.any (fun m => m.id = id) = false) :
    ∀ x ∈ l, decide (x.id = id) = false := by
  intro x hx
  cases hdec : decide (x.id = id)
  · rfl
  · exfalso
    have hT : l.any (fun m => m.id = id) = true :=
      List.any_eq_true.mpr ⟨x, hx, hdec⟩
    rw [h] at hT
    exact Bool.false_ne_true hT

/-- Core of the sniff-buffer property, for any writer satisfying the
invariant with empty accumulators: after a sequence of writes the sniff
buffer is the first 512 bytes of the content (empty when a type was
supplied), and the closed record persists the detected (or supplied)
type. -/
theorem sniff_core (H : Bytes → Bytes) (D : Bytes → String) (now : Nat)
    (db1 : DB) (w : Writer) (chunks : List Bytes) (id : Nat)
    (hinv : WInv w db1)
    (h0 : w.hashed = [])
    (hid0 : w.id = id)
    (hfree : ∀ x ∈ db1.meta, decide (x.id = id) = false) :
    ((writeChunks db1 w chunks).1.tag =
      if w.contentType = "" then chunks.flatten.take 512 else []) ∧
    (writeChunks db1 w chunks).1.tag.length ≤ 512 ∧
    (∃ m : Meta,
      (writerClose H D now false (writeChunks db1 w chunks).2
        (writeChunks db1 w chunks).1).2.2.meta.find?
        (fun mm => mm.id = id) = some m ∧
      m.contentType =
        (if w.contentType = "" then D ((writeChunks db1 w chunks).1.tag)
         else w.contentType) ∧
      (w.contentType = "" → D (chunks.flatten.take 512) = BinaryType →
        m.contentType = BinaryType)) := by
  obtain ⟨hinv', hh, hct, hfd, hoid, hid, hsys, hmeta, hnfd⟩ :=
    writeChunks_inv chunks db1 w hinv
  obtain ⟨hcl, hfdl, hobjl, hszl, ht1, ht2⟩ := hinv'
  rw [h0, List.nil_append] at hh
  have htag :
      (writeChunks db1 w chunks).1.tag =
        if w.contentType = "" then chunks.flatten.take 512 else [] := by
    by_cases hc : w.contentType = ""
    · rw [if_pos hc, ← hh]
      exact ht1 (by rw [hct, hc])
    · rw [if_neg hc]
      exact ht2 (by rw [hct]; exact hc)
  refine ⟨htag, ?_, ?_⟩
  · rw [htag]
    by_cases hc : w.contentType = ""
    · rw [if_pos hc]
      simp [List.length_take]
    · rw [if_neg hc]
      simp
  · rw [writerClose_eq H D now (writeChunks db1 w chunks).2
      (writeChunks db1 w chunks).1 hcl hfdl]
    refine ⟨{ oid := (writeChunks db1 w chunks).1.oid,
              id := (writeChunks db1 w chunks).1.id,
              createdAt := now,
              sys := (writeChunks db1 w chunks).1.sys,
              contentSize := (writeChunks db1 w chunks).1.size,
              contentType :=
                if (writeChunks db1 w chunks).1.contentType = "" then
                  D (writeChunks db1 w chunks).1.tag
                else (writeChunks db1 w chunks).1.contentType,
              contentSHA256 := H (writeChunks db1 w chunks).1.hashed },
            ?_, ?_, ?_⟩
    · dsimp only
      rw [hmeta, find?_append_of_none _ db1.meta _ hfree]
      have hid' :
          decide ((writeChunks db1 w chunks).1.id = id) = true := by
        simp [hid, hid0]
      simp [List.find?, hid']
    · dsimp only
      rw [hct]
    · intro hc hD
      dsimp only
      rw [hct, if_pos hc, ← hD]
      congr 1
      rw [htag, if_pos hc]

/-- C6: starting from a successful `FS.Create` of a fresh name, after any
sequence of writes the sniff buffer holds exactly the first
min(512, total accepted) bytes of the content when no content type was
supplied — in particular it never exceeds 512 bytes — and stays empty
when a content type was supplied; at close, detection `D` runs over the
sniff buffer and its result is persisted (the supplied type otherwise),
so a generic binary type is persisted exactly when detection is
inconclusive (returns the generic binary type). -/
theorem c6_sniff_buffer (H : Bytes → Bytes) (D : Bytes → String) (now : Nat)
    (db0 : DB) (name ct : String) (sys : List (String × String)) (id : Nat)
    (chunks : List Bytes)
    (hp : uuidParse name = some id)
    (hfree : db0.meta.any (fun m => m.id = id) = false)
    (w : Writer) (db1 : DB)
    (hcreate : fsCreate db0 name ct sys = (.ok w, db1)) :
    ((writeChunks db1 w chunks).1.tag =
      if ct = "" then chunks.flatten.take 512 else []) ∧
    (writeChunks db1 w chunks).1.tag.length ≤ 512 ∧
    (∃ m : Meta,
      (writerClose H D now false (writeChunks db1 w chunks).2
        (writeChunks db1 w chunks).1).2.2.meta.find?
        (fun mm => mm.id = id) = some m ∧
      m.contentType =
        (if ct = "" then D ((writeChunks db1 w chunks).1.tag) else ct) ∧
      (ct = "" → D (chunks.flatten.take 512) = BinaryType →
        m.contentType = BinaryType)) := by
  have he := fsCreate_eq db0 name ct sys id hp hfree
  have h2 := hcreate.symm.trans he
  have hw : w = { fd := db0.nextFd, oid := db0.nextOid, id := id,
                  sys := sys, contentType := ct, size := 0, hashed := [],
                  closed := false, tag := [] } :=
    Except.ok.inj (congrArg Prod.fst h2)
  have hdb : db1 = { db0 with
      objects := (db0.nextOid, ([] : Bytes)) :: db0.objects,
      fds := (db0.nextFd, (db0.nextOid, 0)) :: db0.fds,
      nextOid := db0.nextOid + 1, nextFd := db0.nextFd + 1 } :=
    congrArg Prod.snd h2
  subst hw
  subst hdb
  exact sniff_core H D now _ _ chunks id (WInv_init db0 id ct sys) rfl rfl
    (meta_not_found db0.meta id hfree)

/-- Appending a row with the sought id behind rows without it makes
`find?` return exactly that row. -/
theorem find?_append_singleton (l : List Meta) (m : Meta) (id : Nat)
    (hfree : ∀ x ∈ l, decide (x.id = id) = false)
    (hm : m.id = id) :
    List.find? (fun mm => mm.id = id) (l ++ [m]) = some m := by
  rw [find?_append_of_none _ l _ hfree]
  simp [List.find?, hm]

/-- Opening a name whose record is found and reading to end-of-stream
returns exactly the stored object's content. -/
theorem openRead_of_found (db3 : DB) (name : String) (id k fuel : Nat)
    (m : Meta) (content : Bytes)
    (hp : uuidParse name = some id)
    (hfind : db3.meta.find? (fun mm => mm.id = id) = some m)
    (hobj : alookup db3.objects m.oid = some content)
    (hk : 0 < k)
    (hfuel : content.length / k + 1 ≤ fuel) :
    openReadFull db3 name k fuel = (none, content) := by
  have hne : name ≠ "" := by
    intro hEq
    rw [hEq] at hp
    exact Option.noConfusion ((by decide : uuidParse "" = none).symm.trans hp)
  have hio : ioOpen db3 id =
      (.ok (m, db3.nextFd),
       { db3 with fds := (db3.nextFd, (m.oid, 0)) :: db3.fds,
                  nextFd := db3.nextFd + 1 }) := by
    simp only [ioOpen, hfind]
  have hopen : fsOpen db3 name =
      (.ok (.inl { fd := db3.nextFd, info := m, pos := 0, closed := false }),
       { db3 with fds := (db3.nextFd, (m.oid, 0)) :: db3.fds,
                  nextFd := db3.nextFd + 1 }) := by
    simp only [fsOpen, if_neg hne, hp, hio]
  simp only [openReadFull, hopen]
  have hread := readFull_spec k hk fuel
    { db3 with fds := (db3.nextFd, (m.oid, 0)) :: db3.fds,
               nextFd := db3.nextFd + 1 }
    { fd := db3.nextFd, info := m, pos := 0, closed := false }
    m.oid 0 content (by simp [alookup]) hobj (by simpa using hfuel)
  rw [hread, List.drop_zero]

/-- Core of the round-trip property, for any writer satisfying the
invariant with empty accumulators: after streaming the chunks, the first
close succeeds, the persisted record carries the digest and size of the
full content, and opening the name and reading to end-of-stream returns
exactly the written bytes. -/
theorem roundtrip_core (H : Bytes → Bytes) (D : Bytes → String) (now : Nat)
    (db1 : DB) (w : Writer) (chunks : List Bytes) (id k fuel : Nat)
    (name : String)
    (hinv : WInv w db1) (h0 : w.hashed = []) (hid0 : w.id = id)
    (hfree : ∀ x ∈ db1.meta, decide (x.id = id) = false)
    (hp : uuidParse name = some id) (hk : 0 < k)
    (hfuel : chunks.flatten.length / k + 1 ≤ fuel) :
    (writerClose H D now false (writeChunks db1 w chunks).2
      (writeChunks db1 w chunks).1).1 = none ∧
    openReadFull
      (writerClose H D now false (writeChunks db1 w chunks).2
        (writeChunks db1 w chunks).1).2.2 name k fuel =
      (none, chunks.flatten) ∧
    (∃ m : Meta,
      (writerClose H D now false (writeChunks db1 w chunks).2
        (writeChunks db1 w chunks).1).2.2.meta.find?
        (fun mm => mm.id = id) = some m ∧
      m.contentSHA256 = H chunks.flatten ∧
      m.contentSize = chunks.flatten.length) := by
  obtain ⟨hinv', hh, hct, hfd, hoid, hid, hsys, hmeta, hnfd⟩ :=
    writeChunks_inv chunks db1 w hinv
  obtain ⟨hcl, hfdl, hobjl, hszl, ht1, ht2⟩ := hinv'
  rw [h0, List.nil_append] at hh
  rw [writerClose_eq H D now (writeChunks db1 w chunks).2
    (writeChunks db1 w chunks).1 hcl hfdl]
  have hfreem : ∀ x ∈ (writeChunks db1 w chunks).2.meta,
      decide (x.id = id) = false := by
    rw [hmeta]
    exact hfree
  refine ⟨rfl, ?_, ?_⟩
  · refine openRead_of_found _ name id k fuel _ chunks.flatten hp
      (find?_append_singleton _ _ id hfreem (hid.trans hid0)) ?_ hk hfuel
    show alookup (writeChunks db1 w chunks).2.objects
      (writeChunks db1 w chunks).1.oid = some chunks.flatten
    rw [← hh]
    exact hobjl
  · refine ⟨_, find?_append_singleton _ _ id hfreem (hid.trans hid0),
      ?_, ?_⟩
    · exact congrArg H hh
    · show (writeChunks db1 w chunks).1.size = chunks.flatten.length
      rw [hszl, hh]

/-- C1: for every byte sequence (streamed in any sequence of chunks),
creating a fresh valid name, writing the chunks and closing, then opening
the name and reading it fully in chunks of any positive size, returns
exactly the written bytes; and the metadata record persisted at close
carries the digest `H` of exactly those bytes (and their length as the
size). -/
theorem c1_roundtrip (H : Bytes → Bytes) (D : Bytes → String) (now : Nat)
    (db0 : DB) (name ct : String) (sys : List (String × String)) (id : Nat)
    (chunks : List Bytes) (k fuel : Nat)
    (hp : uuidParse name = some id)
    (hfree : db0.meta.any (fun m => m.id = id) = false)
    (hk : 0 < k)
    (hfuel : chunks.flatten.length / k + 1 ≤ fuel) :
    ∃ db3 : DB,
      createWriteClose H D now db0 name ct sys chunks = (none, db3) ∧
      openReadFull db3 name k fuel = (none, chunks.flatten) ∧
      (∃ m : Meta, db3.meta.find? (fun mm => mm.id = id) = some m ∧
        m.contentSHA256 = H chunks.flatten ∧
        m.contentSize = chunks.flatten.length) := by
  have he := fsCreate_eq db0 name ct sys id hp hfree
  obtain ⟨h1, h2, h3⟩ := roundtrip_core H D now
    { db0 with
       objects := (db0.nextOid, ([] : Bytes)) :: db0.objects,
       fds := (db0.nextFd, (db0.nextOid, 0)) :: db0.fds,
       nextOid := db0.nextOid + 1, nextFd := db0.nextFd + 1 }
    { fd := db0.nextFd, oid := db0.nextOid, id := id, sys := sys,
      contentType := ct, size := 0, hashed := [], closed := false,
      tag := [] }
    chunks id k fuel name (WInv_init db0 id ct sys) rfl rfl
    (meta_not_found db0.meta id hfree) hp hk hfuel
  refine ⟨_, ?_, h2, h3⟩
  simp only [createWriteClose, he]
  rw [h1]

/-- C1 witness: the bytes [1,2,3] written as chunks [1,2] then [3] into
an empty store under the sample name, read back in chunks of 2 with 3
read calls; the identity digest and a constant detector stand in for the
external hasher and sniffer. -/
theorem c1_roundtrip_witness :
    ∃ db3 : DB,
      createWriteClose (fun x => x) (fun _ => BinaryType) 4 emptyDB
        sampleName "" [] [[1, 2], [3]] = (none, db3) ∧
      openReadFull db3 sampleName 2 3 = (none, [1, 2, 3]) ∧
      (∃ m : Meta, db3.meta.find? (fun mm => mm.id = 1) = some m ∧
        m.contentSHA256 = [1, 2, 3] ∧
        m.contentSize = 3) :=
  c1_roundtrip (fun x => x) (fun _ => BinaryType) 4 emptyDB sampleName ""
    [] 1 [[1, 2], [3]] 2 3 (by decide) (by decide) (by decide) (by decide)

/-- The writer produced by a concrete successful create on the empty
store. -/
def c6w : Writer :=
  { fd := 1, oid := 1, id := 1, sys := [], contentType := "", size := 0,
    hashed := [], closed := false, tag := [] }

/-- The store state right after that create. -/
def c6db1 : DB :=
  { objects := [(1, ([] : Bytes))], fds := [(1, (1, 0))], meta := [],
    nextOid := 2, nextFd := 2 }

/-- C6 witness: with no supplied content type, after writing [9] then [8]
the sniff buffer holds exactly [9, 8]. -/
theorem c6_sniff_buffer_witness :
    (writeChunks c6db1 c6w [[9], [8]]).1.tag = [9, 8] := by
  have h := c6_sniff_buffer (fun x => x) (fun _ => "image/png") 3 emptyDB
    sampleName "" [] 1 [[9], [8]] (by decide) (by decide) c6w c6db1 rfl
  exact h.1.trans (by decide)

end Pgfs
